import Mathlib

/-!
Shallow embedding of the telemetry acquisition, retention and aggregation
engine of `src/app.py` (an IoT energy-monitoring Flask application).

Modelling conventions:
* Machine numbers (Python floats and ints) are embedded as `ℚ`; timestamps
  (ISO-8601 strings produced by `datetime.now().isoformat()` and compared via
  `datetime.fromisoformat`) are embedded as `ℚ` seconds since an arbitrary
  epoch, with the naive local calendar date of an instant obtained by flooring
  (`strftime "%Y-%m-%d"` buckets instants into 86400-second days).
* Python's builtin `round(x, n)` is embedded as exact round-half-to-even on
  `ℚ` (its documented behaviour; binary floating point can perturb exact
  halfway cases, which we note where it matters).
* Fallible operations (the JSON-file read, the day-detail HTTP endpoint)
  return `Except String _`; catching an exception is an explicit `match` on
  the `Except`.
* The `lru_cache` slot of `get_cached_device_status` is explicit state
  (`CacheState`), threaded through calls; the outcome of the one fallible
  device call `device.status()` is an explicit `ReadOutcome` argument.
-/

/-- Round-half-to-even to an integer, the tie-breaking rule of Python's
builtin `round` (on exact values). -/
def rhe (q : ℚ) : ℤ :=
  if q - ⌊q⌋ < 1 / 2 then ⌊q⌋
  else if q - ⌊q⌋ > 1 / 2 then ⌊q⌋ + 1
  else if ⌊q⌋ % 2 = 0 then ⌊q⌋ else ⌊q⌋ + 1

/-- Python's `round(q, n)`: round to `n` decimal places, ties to even. -/
def pyRound (q : ℚ) (n : ℕ) : ℚ := (rhe (q * 10 ^ n) : ℚ) / 10 ^ n

/-- The local calendar date of an instant, as a day index: the bucket
`datetime.fromisoformat(ts).strftime("%Y-%m-%d")` sorts the instant into. -/
def dateOf (t : ℚ) : ℤ := ⌊t / 86400⌋

/-- One telemetry reading as persisted in `energy_data.json`:
the `data` object of an entry (`save_energy_data`, src/app.py:77-83). -/
structure Telemetry where
  current_ma : ℚ
  power_w : ℚ
  voltage_v : ℚ
  total_kwh : ℚ
  is_on : Bool
deriving DecidableEq

/-- One record of `energy_data.json`: a capture instant plus the telemetry
(`save_energy_data`, src/app.py:75-84). -/
structure Entry where
  timestamp : ℚ
  data : Telemetry
deriving DecidableEq

/-- The `dps` dictionary returned by `device.status()`: data points
`'1'` (switch), `'17'` (energy, thousandths of kWh), `'18'` (current, mA),
`'19'` (power, tenths of W), `'20'` (voltage, tenths of V). The Python code
reads each key with `.get(key, 0)` / `.get('1', False)`, so an absent key
behaves exactly like the zero default; we model the post-default values. -/
structure Dps where
  dp1 : Bool
  dp17 : ℚ
  dp18 : ℚ
  dp19 : ℚ
  dp20 : ℚ
deriving DecidableEq

/-- The empty dictionary `{}` that `get_cached_device_status` returns when the
device is missing or the read raises: every `.get` on it yields its default,
so it reads back as all-zero / off telemetry. -/
def emptyDps : Dps := ⟨false, 0, 0, 0, 0⟩

/-- The entry built by `save_energy_data` (src/app.py:75-84): stamps the
append instant and normalizes units (power and voltage are device-reported
tenths, energy thousandths). -/
def mkEntry (data : Dps) (now : ℚ) : Entry :=
  ⟨now, ⟨data.dp18, data.dp19 / 10, data.dp20 / 10, data.dp17 / 1000, data.dp1⟩⟩

/-- `timedelta(days=30)` in seconds: the retention window of the sample
store (src/app.py:89). -/
def retentionWindow : ℚ := 30 * 86400

/-- `save_energy_data` (src/app.py:69-98), success path: load the stored
list, append the new entry stamped `now`, drop every entry whose timestamp is
not strictly newer than `now - 30 days`, and write the result back. The two
`datetime.now()` calls (entry stamp, cutoff) are the same instant at our
granularity and are modelled as the one parameter `now`. On an I/O error the
whole operation is a no-op (the `except` leaves the file unchanged), so the
function below is the state transition of every successful append. -/
def save_energy_data (store : List Entry) (data : Dps) (now : ℚ) : List Entry :=
  (store ++ [mkEntry data now]).filter (fun e => decide (now - retentionWindow < e.timestamp))

/-- A sequence of successful appends starting from the empty store, each
element carrying the device data and the append instant. Pruning happens
inside each append; there is no other mutation of the store. -/
def applyAppends (ops : List (Dps × ℚ)) : List Entry :=
  ops.foldl (fun st op => save_energy_data st op.1 op.2) []

/-- The single memo slot of `@lru_cache(maxsize=1)` on
`get_cached_device_status` (src/app.py:59): the cached return value, if any,
paired with the instant it was captured. The Python cache stores no
timestamp at all; we carry one so that staleness claims can be stated. -/
structure CacheState where
  cached : Option (Dps × ℚ)
deriving DecidableEq

/-- Outcome of the one fallible call `device.status()`. -/
inductive ReadOutcome where
  | success (dps : Dps)
  | failure
deriving DecidableEq

/-- `get_cached_device_status` (src/app.py:59-67) as a state transition:
given the memo slot, the current instant, whether `device` initialization
succeeded at startup, and the outcome the device read would have, it returns
(result, new slot, whether device I/O happened). `lru_cache` on a no-argument
function returns the memoized value whenever the slot is full — the current
instant is never consulted; on a miss the body runs: `{}` if the device is
absent, the `dps` dictionary on a successful read, `{}` if the read raises
(the bare `except`), and the returned value is memoized. -/
def get_cached_device_status (st : CacheState) (now : ℚ) (deviceOk : Bool)
    (ro : ReadOutcome) : Dps × CacheState × Bool :=
  match st.cached with
  | some (v, _) => (v, st, false)
  | none =>
    if deviceOk then
      match ro with
      | .success d => (d, ⟨some (d, now)⟩, true)
      | .failure => (emptyDps, ⟨some (emptyDps, now)⟩, true)
    else (emptyDps, ⟨some (emptyDps, now)⟩, false)

/-- `get_cached_device_status.cache_clear()`, called by the monitor thread
every 300 s and by the `/on` and `/off` routes (src/app.py:156,279,286). -/
def cache_clear (_st : CacheState) : CacheState := ⟨none⟩

/-- The samples of `all_data` whose local calendar date is `d`: the
`selected_data` filter of the `/historical_data` route (src/app.py:236-239). -/
def selectDay (all_data : List Entry) (d : ℤ) : List Entry :=
  all_data.filter (fun e => decide (dateOf e.timestamp = d))

/-- One step of the trapezoid loop of `/historical_data` (src/app.py:248-257):
state is (`total_watt_hours`, previous (timestamp, power) if any). -/
def twhStep (st : ℚ × Option (ℚ × ℚ)) (e : Entry) : ℚ × Option (ℚ × ℚ) :=
  match st with
  | (total, some (pt, pp)) =>
    (total + (pp + e.data.power_w) / 2 * ((e.timestamp - pt) / 3600),
      some (e.timestamp, e.data.power_w))
  | (total, none) => (total, some (e.timestamp, e.data.power_w))

/-- `total_watt_hours` accumulated by the loop of `/historical_data`
(src/app.py:244-257). -/
def totalWattHours (es : List Entry) : ℚ := (es.foldl twhStep (0, none)).1

/-- The JSON body of a successful `/historical_data` response
(src/app.py:261-267). Timestamps are reported raw (the route formats them
`"%H:%M"` for display; the formatting is presentation only). -/
structure DayDetail where
  timestamps : List ℚ
  power : List ℚ
  voltage : List ℚ
  current : List ℚ
  totalKwh : ℚ
deriving DecidableEq

/-- The `/historical_data` route (src/app.py:228-269) given the stored list
and the requested date: filter the day, answer 404 `'No data for selected
date'` when nothing matches, otherwise integrate power by the trapezoidal
rule and return the series plus `round(total_watt_hours / 1000, 3)`. -/
def historical_data (all_data : List Entry) (d : ℤ) : Except String DayDetail :=
  let sel := selectDay all_data d
  if sel = [] then .error "No data for selected date"
  else .ok ⟨sel.map (fun e => e.timestamp), sel.map (fun e => e.data.power_w),
    sel.map (fun e => e.data.voltage_v), sel.map (fun e => e.data.current_ma / 1000),
    pyRound (totalWattHours sel / 1000) 3⟩

/-- The spec's trapezoidal-rule integral, written as the spec states it: for
each adjacent pair, (mean power) times the time difference in hours, summed.
Spec-side definition, to be compared with the source-side `totalWattHours`. -/
def trapSpec (es : List Entry) : ℚ :=
  ((es.zip es.tail).map (fun p =>
    (p.1.data.power_w + p.2.data.power_w) / 2 * ((p.2.timestamp - p.1.timestamp) / 3600))).sum

/-- Helper for relating the loop to the pairwise sum: the trapezoid area
accumulated after the previous sample (`pt`, `pp`) over the remaining
entries. -/
def trapAux (pt pp : ℚ) : List Entry → ℚ
  | [] => 0
  | e :: rest =>
    (pp + e.data.power_w) / 2 * ((e.timestamp - pt) / 3600)
      + trapAux e.timestamp e.data.power_w rest

/-- A sample day for concrete evaluation: 12:00 / 100 W, 12:30 / 150 W,
13:00 / 50 W, all on calendar day 0 (timestamps in seconds from midnight). -/
def ex3day : List Entry :=
  [⟨43200, ⟨0, 100, 0, 0, true⟩⟩, ⟨45000, ⟨0, 150, 0, 0, true⟩⟩, ⟨46800, ⟨0, 50, 0, 0, true⟩⟩]

/-- A concrete `dps` reading used by witnesses. -/
def dps0 : Dps := ⟨true, 1234, 500, 600, 2300⟩

/-- A second, distinct concrete `dps` reading. -/
def dps1 : Dps := ⟨true, 2000, 700, 800, 2310⟩

/-- The per-date bucket of `get_historical_data`'s `daily_data`
(src/app.py:112-119): parallel lists of power (W), voltage (V), current
(mA, raw), timestamps. -/
structure DayBucket where
  power : List ℚ
  voltage : List ℚ
  current : List ℚ
  timestamps : List ℚ
deriving DecidableEq

/-- The bucket holding no samples yet (`defaultdict`'s default). -/
def emptyBucket : DayBucket := ⟨[], [], [], []⟩

/-- Append one entry's fields to a bucket (the four `.append` calls,
src/app.py:116-119). -/
def bucketPush (b : DayBucket) (e : Entry) : DayBucket :=
  ⟨b.power ++ [e.data.power_w], b.voltage ++ [e.data.voltage_v],
    b.current ++ [e.data.current_ma], b.timestamps ++ [e.timestamp]⟩

/-- Route one entry into the association list of per-date buckets: the
`defaultdict` update of src/app.py:114-119, keys in first-seen order. -/
def addToBucket : List (ℤ × DayBucket) → Entry → List (ℤ × DayBucket)
  | [], e => [(dateOf e.timestamp, bucketPush emptyBucket e)]
  | (d, b) :: rest, e =>
    if d = dateOf e.timestamp then (d, bucketPush b e) :: rest
    else (d, b) :: addToBucket rest e

/-- The `daily_data` grouping loop of `get_historical_data`
(src/app.py:112-119). -/
def groupDaily (es : List Entry) : List (ℤ × DayBucket) := es.foldl addToBucket []

/-- `get_historical_data` (src/app.py:100-124). `readResult` is the outcome
of the locked JSON-file read; the `except` branch turns any failure into the
empty dict `{}` (after printing), so the return type is not fallible. -/
def get_historical_data (readResult : Except String (List Entry)) (now days : ℚ) :
    List (ℤ × DayBucket) :=
  match readResult with
  | .error _ => []
  | .ok all_data =>
    groupDaily (all_data.filter (fun e => decide (now - days * 86400 < e.timestamp)))

/-- min/avg/max of one metric as `analyze_data` reports it. -/
structure Stats3 where
  avg : ℚ
  max : ℚ
  min : ℚ
deriving DecidableEq

/-- The per-date statistics object of `analyze_data` (src/app.py:130-146). -/
structure DayStats where
  power : Stats3
  voltage : Stats3
  current : Stats3
deriving DecidableEq

/-- Python's `max` over a non-empty list (the `[] => 0` case is never
reached by `analyze_data`, which guards on a non-empty bucket; Python would
raise there). -/
def listMax : List ℚ → ℚ
  | [] => 0
  | x :: xs => xs.foldl max x

/-- Python's `min` over a non-empty list (same remark as `listMax`). -/
def listMin : List ℚ → ℚ
  | [] => 0
  | x :: xs => xs.foldl min x

/-- The statistics `analyze_data` computes for one date's bucket
(src/app.py:130-146): power and voltage rounded to 2 places, current
converted mA→A by dividing by 1000 and rounded to 3 places. -/
def statsOf (v : DayBucket) : DayStats :=
  ⟨⟨pyRound (v.power.sum / v.power.length) 2, pyRound (listMax v.power) 2,
      pyRound (listMin v.power) 2⟩,
    ⟨pyRound (v.voltage.sum / v.voltage.length) 2, pyRound (listMax v.voltage) 2,
      pyRound (listMin v.voltage) 2⟩,
    ⟨pyRound (v.current.sum / v.current.length / 1000) 3, pyRound (listMax v.current / 1000) 3,
      pyRound (listMin v.current / 1000) 3⟩⟩

/-- `analyze_data` (src/app.py:126-147): for each date whose bucket is
non-empty (`if values['power']:`), the per-metric statistics; empty buckets
are skipped. -/
def analyze_data (data : List (ℤ × DayBucket)) : List (ℤ × DayStats) :=
  data.filterMap (fun x => if x.2.power = [] then none else some (x.1, statsOf x.2))

/-- The entries of `es` falling on calendar date `d` (spec-side selection
used to characterize the grouped buckets). -/
def entriesOn (d : ℤ) (es : List Entry) : List Entry :=
  es.filter (fun e => decide (dateOf e.timestamp = d))

/-- The bucket date `d` ought to hold: the four fields of the matching
entries, in stored order (spec-side characterization). -/
def bucketSpec (d : ℤ) (es : List Entry) : DayBucket :=
  ⟨(entriesOn d es).map (fun e => e.data.power_w),
    (entriesOn d es).map (fun e => e.data.voltage_v),
    (entriesOn d es).map (fun e => e.data.current_ma),
    (entriesOn d es).map (fun e => e.timestamp)⟩

/-- Three same-day samples with powers 10, 20, 30 (voltage and current zero),
the aggregation example of the spec. -/
def exSameDay : List Entry :=
  [⟨0, ⟨0, 10, 0, 0, true⟩⟩, ⟨60, ⟨0, 20, 0, 0, true⟩⟩, ⟨120, ⟨0, 30, 0, 0, true⟩⟩]

/-- A concrete two-append schedule (instants 0 and 100) used by witnesses. -/
def ops0 : List (Dps × ℚ) := [(dps0, 0), (dps1, 100)]

/-- First-match association lookup on the per-date bucket list (`dict`
access by key; keys of `groupDaily`'s output are unique, see
`nodup_keys_groupDaily`). -/
def lookupB : List (ℤ × DayBucket) → ℤ → Option DayBucket
  | [], _ => none
  | (d', b) :: rest, d => if d = d' then some b else lookupB rest d

/-- C1. After any successful append (over any prior store state, hence after
each append of any sequence), every stored sample is strictly newer than the
append instant minus the 30-day retention window; in particular a read after
the final append of a sequence contains no sample older than 30 days
relative to that append's instant. -/
theorem retention_after_append :
    (∀ (store : List Entry) (data : Dps) (now : ℚ),
      ∀ e ∈ save_energy_data store data now, now - retentionWindow < e.timestamp) ∧
    (∀ (ops : List (Dps × ℚ)) (data : Dps) (now : ℚ),
      ∀ e ∈ applyAppends (ops ++ [(data, now)]), now - retentionWindow < e.timestamp) := by
  have h1 : ∀ (store : List Entry) (data : Dps) (now : ℚ),
      ∀ e ∈ save_energy_data store data now, now - retentionWindow < e.timestamp := by
    intro store data now e he
    have := (List.mem_filter.mp he).2
    exact of_decide_eq_true this
  refine ⟨h1, ?_⟩
  intro ops data now e he
  have : applyAppends (ops ++ [(data, now)]) = save_energy_data (applyAppends ops) data now := by
    simp [applyAppends, List.foldl_append]
  rw [this] at he
  exact h1 _ data now e he

/-- C7. Querying `/historical_data` for a date with no stored samples
answers the explicit 404 error `'No data for selected date'`; no zero-filled
series is ever produced for such a date. -/
theorem empty_day_returns_error (all_data : List Entry) (d : ℤ)
    (h : selectDay all_data d = []) :
    historical_data all_data d = .error "No data for selected date" := by
  simp [historical_data, h]

/-- Witness for `empty_day_returns_error`: the empty store and day 0. -/
theorem empty_day_returns_error_witness :
    historical_data [] 0 = .error "No data for selected date" :=
  empty_day_returns_error [] 0 rfl

/-- C8 counterexample. A failed storage read inside `get_historical_data` is
not surfaced: the `except` branch returns the empty dict, which is exactly
what an empty store produces — the caller cannot tell the failure happened. -/
theorem history_read_failure_counterexample :
    get_historical_data (.error "storage read failed") 0 7 = [] ∧
    get_historical_data (.error "storage read failed") 0 7 =
      get_historical_data (.ok []) 0 7 := ⟨rfl, rfl⟩

/-- C8 amended. Whenever the durable-storage read fails during a history
query, `get_historical_data` swallows the failure and returns the empty
mapping (the failure is only printed), rather than failing hard. -/
theorem history_read_failure_returns_empty (msg : String) (now days : ℚ) :
    get_historical_data (.error msg) now days = [] := rfl

/-- C5 (the code against its own 10-second contract). A `get` call on a slot
captured 15 seconds ago — older than the documented 10-second refresh
period — returns the stale cached value and performs no device I/O: the
`lru_cache` has no time-based expiry at all, so only an explicit
`cache_clear` (issued by the monitor thread every 300 s, not every 10 s)
ever causes a fresh read. -/
theorem cache_serves_stale_after_ttl :
    ((15 : ℚ) - 0 > 10) ∧
    get_cached_device_status ⟨some (dps0, 0)⟩ 15 true (.success dps1) =
      (dps0, ⟨some (dps0, 0)⟩, false) := by
  constructor
  · norm_num
  · rfl

/-- C6. `get_cached_device_status` never propagates a device failure: when
the device read would fail (or the device is absent), the call still returns
normally, yielding the memoized last value when the slot is full and the
explicit empty (all-zero) telemetry `{}` otherwise. (The code imposes no age
ceiling on the memoized value — there is no timestamp in the cache at all.) -/
theorem cache_failure_returns_cached_or_empty (st : CacheState) (now : ℚ)
    (deviceOk : Bool) (ro : ReadOutcome) (h : ro = .failure) :
    (get_cached_device_status st now deviceOk ro).1 =
      (st.cached.map Prod.fst).getD emptyDps := by
  subst h
  rcases st with ⟨_ | ⟨v, t⟩⟩ <;> cases deviceOk <;> rfl

/-- Witness for `cache_failure_returns_cached_or_empty`: empty slot, failing
read, at instant 0. -/
theorem cache_failure_returns_cached_or_empty_witness :
    (get_cached_device_status ⟨none⟩ 0 true .failure).1 =
      ((none : Option (Dps × ℚ)).map Prod.fst).getD emptyDps :=
  cache_failure_returns_cached_or_empty ⟨none⟩ 0 true .failure rfl

theorem foldl_twhStep_some (es : List Entry) : ∀ (t pt pp : ℚ),
    (es.foldl twhStep (t, some (pt, pp))).1 = t + trapAux pt pp es := by
  induction es with
  | nil => intro t pt pp; simp [trapAux]
  | cons e rest ih =>
    intro t pt pp
    simp only [List.foldl_cons, twhStep, trapAux]
    rw [ih]
    ring

theorem totalWattHours_eq_trapAux (e : Entry) (es : List Entry) :
    totalWattHours (e :: es) = trapAux e.timestamp e.data.power_w es := by
  simp only [totalWattHours, List.foldl_cons, twhStep]
  rw [foldl_twhStep_some]
  ring

theorem trapSpec_cons (e : Entry) (es : List Entry) :
    trapSpec (e :: es) = trapAux e.timestamp e.data.power_w es := by
  induction es generalizing e with
  | nil => simp [trapSpec, trapAux]
  | cons e2 rest ih =>
    have h2 : trapSpec (e :: e2 :: rest) =
        (e.data.power_w + e2.data.power_w) / 2 * ((e2.timestamp - e.timestamp) / 3600)
          + trapSpec (e2 :: rest) := by
      simp [trapSpec]
    rw [h2, ih e2, trapAux]

theorem totalWattHours_eq_trapSpec (es : List Entry) : totalWattHours es = trapSpec es := by
  cases es with
  | nil => rfl
  | cons e rest => rw [totalWattHours_eq_trapAux, trapSpec_cons]

/-- C2. For samples sorted ascending by timestamp, the loop of
`/historical_data` accumulates exactly the trapezoidal sum over adjacent
pairs, the reported figure is that sum divided by 1000 and rounded to 3
decimal places, and a sequence of zero or one samples integrates to
exactly 0. -/
theorem integrate_trapezoidal (es : List Entry)
    (h : List.Sorted (· ≤ ·) (es.map Entry.timestamp)) :
    totalWattHours es = trapSpec es ∧
    pyRound (totalWattHours es / 1000) 3 = pyRound (trapSpec es / 1000) 3 ∧
    (es.length ≤ 1 → pyRound (totalWattHours es / 1000) 3 = 0) := by
  refine ⟨totalWattHours_eq_trapSpec es, by rw [totalWattHours_eq_trapSpec es], ?_⟩
  intro hlen
  have h0 : totalWattHours es = 0 := by
    match es, hlen with
    | [], _ => rfl
    | [e], _ => rfl
    | e1 :: e2 :: rest, hl => simp at hl
  rw [h0]
  norm_num [pyRound, rhe]

/-- Witness for `integrate_trapezoidal`: the three-sample day `ex3day`. -/
theorem integrate_trapezoidal_witness :
    List.Sorted (· ≤ ·) (ex3day.map Entry.timestamp) ∧
    (totalWattHours ex3day = trapSpec ex3day ∧
      pyRound (totalWattHours ex3day / 1000) 3 = pyRound (trapSpec ex3day / 1000) 3 ∧
      (ex3day.length ≤ 1 → pyRound (totalWattHours ex3day / 1000) 3 = 0)) :=
  ⟨by norm_num [ex3day, List.sorted_cons],
    integrate_trapezoidal ex3day (by norm_num [ex3day, List.sorted_cons])⟩

theorem selectDay_ex3day : selectDay ex3day 0 = ex3day := by
  norm_num [selectDay, ex3day, dateOf, List.filter_cons]

theorem totalWattHours_ex3day : totalWattHours ex3day = 225 / 2 := by
  norm_num [totalWattHours, ex3day, twhStep, List.foldl_cons]

theorem day_detail_ex3day_eval :
    historical_data ex3day 0 =
      .ok ⟨[43200, 45000, 46800], [100, 150, 50], [0, 0, 0], [0, 0, 0], 112 / 1000⟩ := by
  have hne : ex3day ≠ [] := by simp [ex3day]
  simp only [historical_data, selectDay_ex3day, if_neg hne]
  refine congrArg Except.ok ?_
  have hk : pyRound (totalWattHours ex3day / 1000) 3 = 112 / 1000 := by
    rw [totalWattHours_ex3day]
    norm_num [pyRound, rhe]
  rw [hk]
  norm_num [ex3day]

/-- C3 counterexample. On the spec's own end-to-end day (12:00 / 100 W,
12:30 / 150 W, 13:00 / 50 W), `/historical_data` does not return
`totalKwh = 0.087`: the trapezoidal total is 112.5 Wh = 0.1125 kWh, nowhere
near the 87.5 Wh the spec's quoted figure corresponds to. -/
theorem day_detail_kwh_counterexample :
    (historical_data ex3day 0).map DayDetail.totalKwh ≠ Except.ok (87 / 1000 : ℚ) := by
  rw [day_detail_ex3day_eval]
  simp only [Except.map]
  intro h
  have := Except.ok.inj h
  norm_num at this

/-- C3 amended. On that day the route returns the series of the three
samples and `totalKwh = round(112.5 / 1000, 3) = 0.112` (exact
round-half-to-even; CPython's binary floats land slightly above the tie and
give 0.113 — under no convention 0.087). -/
theorem day_detail_kwh_amended :
    historical_data ex3day 0 =
      .ok ⟨[43200, 45000, 46800], [100, 150, 50], [0, 0, 0], [0, 0, 0], 112 / 1000⟩ :=
  day_detail_ex3day_eval

theorem sorted_save_energy_data (store : List Entry) (data : Dps) (now : ℚ)
    (hs : List.Sorted (· ≤ ·) (store.map Entry.timestamp))
    (hb : ∀ e ∈ store, e.timestamp ≤ now) :
    List.Sorted (· ≤ ·) ((save_energy_data store data now).map Entry.timestamp) := by
  have hs2 : List.Sorted (· ≤ ·) ((store ++ [mkEntry data now]).map Entry.timestamp) := by
    rw [List.map_append]
    refine List.pairwise_append.mpr ⟨hs, ?_, ?_⟩
    · simp
    · intro a ha c hc
      simp only [List.map_cons, List.map_nil, List.mem_singleton] at hc
      obtain ⟨e, he, rfl⟩ := List.mem_map.mp ha
      rw [hc]
      exact hb e he
  have hsub : ((save_energy_data store data now).map Entry.timestamp).Sublist
      ((store ++ [mkEntry data now]).map Entry.timestamp) :=
    List.Sublist.map _ (List.filter_sublist _)
  exact List.Pairwise.sublist hsub hs2

theorem mem_save_energy_data (store : List Entry) (data : Dps) (now : ℚ) (e : Entry)
    (he : e ∈ save_energy_data store data now) : e ∈ store ∨ e = mkEntry data now := by
  have h1 := (List.mem_filter.mp he).1
  rcases List.mem_append.mp h1 with h | h
  · exact Or.inl h
  · exact Or.inr (List.mem_singleton.mp h)

theorem applyAppends_go (ops : List (Dps × ℚ)) :
    ∀ (store : List Entry),
      List.Sorted (· ≤ ·) (store.map Entry.timestamp) →
      (∀ e ∈ store, ∀ x ∈ ops, e.timestamp ≤ x.2) →
      List.Sorted (· ≤ ·) (ops.map Prod.snd) →
      List.Sorted (· ≤ ·)
        ((ops.foldl (fun st op => save_energy_data st op.1 op.2) store).map Entry.timestamp) := by
  induction ops with
  | nil => intro store hs _ _; simpa using hs
  | cons op rest ih =>
    intro store hs hb hops
    rw [List.map_cons] at hops
    obtain ⟨h1, h2⟩ := List.sorted_cons.mp hops
    rw [List.foldl_cons]
    apply ih
    · exact sorted_save_energy_data store op.1 op.2 hs
        (fun e he => hb e he op (List.mem_cons_self op rest))
    · intro e he x hx
      rcases mem_save_energy_data store op.1 op.2 e he with hm | hm
      · exact hb e hm x (List.mem_cons_of_mem op hx)
      · rw [hm]
        exact h1 x.2 (List.mem_map_of_mem Prod.snd hx)
    · exact h2

/-- C9. In every store state reachable by a sequence of appends stamped with
non-decreasing append instants (each append pruning as it goes), the stored
samples read back in non-decreasing timestamp order: neither the append nor
the prune filter reorders them. -/
theorem order_invariant (ops : List (Dps × ℚ))
    (h : List.Sorted (· ≤ ·) (ops.map Prod.snd)) :
    List.Sorted (· ≤ ·) ((applyAppends ops).map Entry.timestamp) := by
  unfold applyAppends
  exact applyAppends_go ops [] (by simp) (by simp) h

/-- Witness for `order_invariant`: two appends at instants 0 and 100. -/
theorem order_invariant_witness :
    List.Sorted (· ≤ ·) (ops0.map Prod.snd) ∧
    List.Sorted (· ≤ ·) ((applyAppends ops0).map Entry.timestamp) :=
  ⟨by norm_num [ops0, List.sorted_cons],
    order_invariant ops0 (by norm_num [ops0, List.sorted_cons])⟩

theorem groupDaily_append_singleton (l : List Entry) (e : Entry) :
    groupDaily (l ++ [e]) = addToBucket (groupDaily l) e := by
  simp [groupDaily, List.foldl_append]

theorem entriesOn_append_eq (d : ℤ) (l : List Entry) (e : Entry)
    (h : dateOf e.timestamp = d) : entriesOn d (l ++ [e]) = entriesOn d l ++ [e] := by
  simp [entriesOn, List.filter_append, h]

theorem entriesOn_append_ne (d : ℤ) (l : List Entry) (e : Entry)
    (h : dateOf e.timestamp ≠ d) : entriesOn d (l ++ [e]) = entriesOn d l := by
  simp [entriesOn, List.filter_append, h]

theorem bucketSpec_append_eq (d : ℤ) (l : List Entry) (e : Entry)
    (h : dateOf e.timestamp = d) :
    bucketSpec d (l ++ [e]) = bucketPush (bucketSpec d l) e := by
  simp [bucketSpec, entriesOn_append_eq d l e h, bucketPush]

theorem bucketSpec_append_ne (d : ℤ) (l : List Entry) (e : Entry)
    (h : dateOf e.timestamp ≠ d) : bucketSpec d (l ++ [e]) = bucketSpec d l := by
  simp [bucketSpec, entriesOn_append_ne d l e h]

theorem lookupB_addToBucket (g : List (ℤ × DayBucket)) (e : Entry) (d : ℤ) :
    lookupB (addToBucket g e) d =
      if d = dateOf e.timestamp then
        some (bucketPush ((lookupB g d).getD emptyBucket) e)
      else lookupB g d := by
  induction g with
  | nil => by_cases h : d = dateOf e.timestamp <;> simp [addToBucket, lookupB, h]
  | cons p rest ih =>
    obtain ⟨d', b'⟩ := p
    by_cases h1 : d' = dateOf e.timestamp
    · subst h1
      by_cases h2 : d = dateOf e.timestamp <;> simp [addToBucket, lookupB, h2]
    · by_cases h2 : d = d'
      · subst h2
        have h3 : ¬d = dateOf e.timestamp := h1
        simp [addToBucket, lookupB, h1, h3]
      · simp [addToBucket, lookupB, h1, h2, ih]

theorem keys_addToBucket (g : List (ℤ × DayBucket)) (e : Entry) :
    (addToBucket g e).map Prod.fst =
      if dateOf e.timestamp ∈ g.map Prod.fst then g.map Prod.fst
      else g.map Prod.fst ++ [dateOf e.timestamp] := by
  induction g with
  | nil => simp [addToBucket]
  | cons p rest ih =>
    obtain ⟨d', b'⟩ := p
    by_cases h1 : d' = dateOf e.timestamp
    · subst h1
      simp [addToBucket]
    · have h1' : ¬dateOf e.timestamp = d' := fun h => h1 h.symm
      by_cases h2 : dateOf e.timestamp ∈ rest.map Prod.fst <;>
        simp [addToBucket, h1, h1', h2, List.mem_cons, ih]

theorem nodup_keys_groupDaily (es : List Entry) :
    ((groupDaily es).map Prod.fst).Nodup := by
  induction es using List.reverseRecOn with
  | nil => simp [groupDaily]
  | append_singleton l e ih =>
    rw [groupDaily_append_singleton, keys_addToBucket]
    by_cases h : dateOf e.timestamp ∈ (groupDaily l).map Prod.fst
    · simpa [h] using ih
    · simp [h, List.nodup_append, ih]

theorem mem_iff_lookupB (g : List (ℤ × DayBucket)) (hnd : (g.map Prod.fst).Nodup)
    (d : ℤ) (b : DayBucket) : (d, b) ∈ g ↔ lookupB g d = some b := by
  induction g with
  | nil => simp [lookupB]
  | cons p rest ih =>
    obtain ⟨d', b'⟩ := p
    rw [List.map_cons, List.nodup_cons] at hnd
    by_cases h : d = d'
    · subst h
      rw [lookupB, if_pos rfl]
      simp only [List.mem_cons, Option.some.injEq, Prod.mk.injEq]
      constructor
      · rintro (⟨_, rfl⟩ | hm)
        · rfl
        · exact absurd (List.mem_map_of_mem Prod.fst hm) hnd.1
      · rintro rfl
        exact Or.inl ⟨trivial, rfl⟩
    · simp only [lookupB, if_neg h, List.mem_cons, Prod.mk.injEq]
      rw [← ih hnd.2]
      simp [h]

theorem groupDaily_lookup (es : List Entry) (d : ℤ) :
    lookupB (groupDaily es) d =
      if entriesOn d es = [] then none else some (bucketSpec d es) := by
  induction es using List.reverseRecOn with
  | nil => simp [groupDaily, entriesOn, lookupB]
  | append_singleton l e ih =>
    rw [groupDaily_append_singleton, lookupB_addToBucket, ih]
    by_cases h : d = dateOf e.timestamp
    · rw [if_pos h]
      rw [entriesOn_append_eq d l e h.symm, bucketSpec_append_eq d l e h.symm]
      by_cases h0 : entriesOn d l = []
      · have hb : bucketSpec d l = emptyBucket := by
          simp [bucketSpec, h0, emptyBucket]
        simp [h0, hb]
      · simp [h0]
    · have h' : dateOf e.timestamp ≠ d := fun hx => h hx.symm
      rw [if_neg h, entriesOn_append_ne d l e h', bucketSpec_append_ne d l e h']

theorem mem_groupDaily (es : List Entry) (d : ℤ) (b : DayBucket)
    (h : (d, b) ∈ groupDaily es) : entriesOn d es ≠ [] ∧ b = bucketSpec d es := by
  have hl := (mem_iff_lookupB (groupDaily es) (nodup_keys_groupDaily es) d b).mp h
  rw [groupDaily_lookup] at hl
  by_cases h0 : entriesOn d es = []
  · rw [if_pos h0] at hl
    exact absurd hl (by simp)
  · rw [if_neg h0] at hl
    exact ⟨h0, (Option.some.inj hl).symm⟩

theorem analyze_groupDaily_mem (es : List Entry) (d : ℤ) (stats : DayStats)
    (h : (d, stats) ∈ analyze_data (groupDaily es)) :
    entriesOn d es ≠ [] ∧ stats = statsOf (bucketSpec d es) := by
  obtain ⟨x, hx, hsome⟩ := List.mem_filterMap.mp h
  obtain ⟨d', b⟩ := x
  simp only at hsome
  by_cases hp : b.power = []
  · rw [if_pos hp] at hsome
    exact absurd hsome (by simp)
  · rw [if_neg hp] at hsome
    have h2 := Option.some.inj hsome
    injection h2 with hd hs
    subst hd
    subst hs
    obtain ⟨hne, hbs⟩ := mem_groupDaily es d' b hx
    exact ⟨hne, congrArg statsOf hbs⟩

theorem groupDaily_exSameDay :
    groupDaily exSameDay = [(0, ⟨[10, 20, 30], [0, 0, 0], [0, 0, 0], [0, 60, 120]⟩)] := by
  norm_num [groupDaily, exSameDay, addToBucket, dateOf, bucketPush, emptyBucket,
    List.foldl_cons, List.foldl_nil]

/-- C4. The aggregation pipeline (`get_historical_data`'s by-date grouping
followed by `analyze_data`) reports, for every date it emits, exactly the
statistics of the samples of that date — per metric the average sum/count,
the max and the min, rounded to 2 places for power and voltage and to 3
places for current after the mA→A division by 1000 (`statsOf`); a date with
zero matching samples is never emitted; and the spec's concrete example
(three same-day powers 10, 20, 30) yields power avg 20, max 30, min 10. -/
theorem summarize_correct :
    (∀ (es : List Entry) (d : ℤ) (stats : DayStats),
        (d, stats) ∈ analyze_data (groupDaily es) →
        entriesOn d es ≠ [] ∧ stats = statsOf (bucketSpec d es)) ∧
    (∀ (es : List Entry) (d : ℤ), entriesOn d es = [] →
        d ∉ (analyze_data (groupDaily es)).map Prod.fst) ∧
    (analyze_data (groupDaily exSameDay)).map (fun x => (x.1, x.2.power)) =
      [((0 : ℤ), (⟨20, 30, 10⟩ : Stats3))] := by
  refine ⟨fun es d stats h => analyze_groupDaily_mem es d stats h, ?_, ?_⟩
  · intro es d h0 hmem
    obtain ⟨x, hx, hfst⟩ := List.mem_map.mp hmem
    obtain ⟨d', s⟩ := x
    simp only at hfst
    subst hfst
    exact (analyze_groupDaily_mem es d' s hx).1 h0
  · rw [groupDaily_exSameDay]
    have hne : (([10, 20, 30] : List ℚ) = []) = False := by simp
    norm_num [analyze_data, List.filterMap_cons, List.filterMap_nil, hne, statsOf, pyRound,
      rhe, listMax, listMin, List.foldl_cons, List.foldl_nil, max_def, min_def]

/-- C10. Every per-date bucket the history grouping produces carries one
element per matching sample in each of its four parallel series, so power,
voltage, current and timestamps always have equal length and the per-metric
averages of `analyze_data` all divide by the same sample count. -/
theorem bucket_series_lengths (es : List Entry) (d : ℤ) (b : DayBucket)
    (h : (d, b) ∈ groupDaily es) :
    b.power.length = (entriesOn d es).length ∧
    b.voltage.length = (entriesOn d es).length ∧
    b.current.length = (entriesOn d es).length ∧
    b.timestamps.length = (entriesOn d es).length := by
  obtain ⟨-, hb⟩ := mem_groupDaily es d b h
  subst hb
  simp [bucketSpec]

/-- Witness for `bucket_series_lengths`: the one bucket of `exSameDay`. -/
theorem bucket_series_lengths_witness :
    (((0 : ℤ), bucketSpec 0 exSameDay) ∈ groupDaily exSameDay) ∧
    ((bucketSpec 0 exSameDay).power.length = (entriesOn 0 exSameDay).length ∧
      (bucketSpec 0 exSameDay).voltage.length = (entriesOn 0 exSameDay).length ∧
      (bucketSpec 0 exSameDay).current.length = (entriesOn 0 exSameDay).length ∧
      (bucketSpec 0 exSameDay).timestamps.length = (entriesOn 0 exSameDay).length) := by
  have hm : ((0 : ℤ), bucketSpec 0 exSameDay) ∈ groupDaily exSameDay := by
    rw [groupDaily_exSameDay]
    norm_num [bucketSpec, entriesOn, exSameDay, dateOf, List.filter_cons]
  exact ⟨hm, bucket_series_lengths exSameDay 0 _ hm⟩
